import Mathlib

/-!
Shallow embedding of the Offering-System service (src/main.go).

The Go program keeps two kinds of mutable maps:
  * per-offer `EnabledFor : map[string]bool`
  * the global `offers : map[string]*Offer`
Both are modelled as association lists (`List (String × α)`) with Go map
semantics: reading an absent key yields the zero value (modelled with
`Option`/`getD`), writing overwrites the entry in place or appends a new one.
Go map iteration order is unspecified; functions that iterate (the best-offer
selector) are modelled over an explicit iteration sequence (a list).
`float64` outcomes are modelled as `ℚ`, which embeds the finite floats
order-faithfully; only the order on outcomes is ever used by the program.
-/

/-- Go map read: first entry with the given key, if any (`m[k]`, comma-ok form). -/
def mapGet {α : Type} : List (String × α) → String → Option α
  | [], _ => none
  | (k', v) :: rest, k => if k' = k then some v else mapGet rest k

/-- Go map write `m[k] = v`: overwrite the existing entry for `k`, else append. -/
def mapSet {α : Type} : List (String × α) → String → α → List (String × α)
  | [], k, v => [(k, v)]
  | (k', v') :: rest, k, v =>
      if k' = k then (k, v) :: rest else (k', v') :: mapSet rest k v

/-- `Transaction` struct from src/main.go (timestamp modelled as a number). -/
structure Transaction where
  txnID : String
  customerID : String
  amount : Int
  merchantID : String
  merchantCategory : String
  postEntryMode : String
  timestamp : Nat
deriving DecidableEq

/-- `Offer` struct from src/main.go. -/
structure Offer where
  id : String
  name : String
  description : String
  rewardType : String
  outcome : ℚ
  minAmount : Int
  minMilestone : Int
  details : String
  enabledFor : List (String × Bool)
  merchantCategory : String
deriving DecidableEq

/-- `func (o *Offer) EnableForUser(userID string)`: `o.EnabledFor[userID] = true`. -/
def Offer.EnableForUser (o : Offer) (userID : String) : Offer :=
  { o with enabledFor := mapSet o.enabledFor userID true }

/-- `func (o *Offer) DisableForUser(userID string)`: `o.EnabledFor[userID] = false`. -/
def Offer.DisableForUser (o : Offer) (userID : String) : Offer :=
  { o with enabledFor := mapSet o.enabledFor userID false }

/-- Go map read with bool zero value: `offer.EnabledFor[userID]` (absent → false). -/
def isEnabledFor (o : Offer) (userID : String) : Bool :=
  (mapGet o.enabledFor userID).getD false

/-- `func isOfferApplicable(transaction Transaction, offer Offer) bool`. -/
def isOfferApplicable (transaction : Transaction) (offer : Offer) : Bool :=
  decide (offer.minAmount ≤ transaction.amount) &&
    (transaction.merchantCategory == offer.merchantCategory) &&
    isEnabledFor offer transaction.customerID

/-- The loop body of `ApplyBestOfferForTransaction`: `bestOffer` accumulator,
remaining iteration sequence. Mirrors
`if isOfferApplicable { if bestOffer == nil || offer.Outcome > bestOffer.Outcome { bestOffer = offer } }`. -/
def applyBestAux (transaction : Transaction) : Option Offer → List Offer → Option Offer
  | best, [] => best
  | best, offer :: rest =>
      if isOfferApplicable transaction offer then
        match best with
        | none => applyBestAux transaction (some offer) rest
        | some b =>
            if b.outcome < offer.outcome then applyBestAux transaction (some offer) rest
            else applyBestAux transaction (some b) rest
      else applyBestAux transaction best rest

/-- `func ApplyBestOfferForTransaction(transaction, offers) (*Offer, error)` over a
given iteration sequence of the offers map. -/
def ApplyBestOfferForTransaction (transaction : Transaction) (offers : List Offer) :
    Except String Offer :=
  match applyBestAux transaction none offers with
  | some b => .ok b
  | none => .error "no applicable offer found"

/-- The global offers store `map[string]*Offer`. -/
abbrev Store : Type := List (String × Offer)

/-- `createOfferHandler` after a successful JSON decode: `offers[offer.ID] = &offer`. -/
def createOfferHandler (store : Store) (offer : Offer) : Store :=
  mapSet store offer.id offer

/-- `enableOfferHandler`: look up the offer by name; absent → 404 with the store
untouched (`false`), else mutate the offer in place (`true`). -/
def enableOfferHandler (store : Store) (offerName userID : String) : Store × Bool :=
  match mapGet store offerName with
  | none => (store, false)
  | some offer => (mapSet store offerName (offer.EnableForUser userID), true)

/-- `disableOfferHandler`: look up the offer by name; absent → 404 with the store
untouched (`false`), else mutate the offer in place (`true`). -/
def disableOfferHandler (store : Store) (offerName userID : String) : Store × Bool :=
  match mapGet store offerName with
  | none => (store, false)
  | some offer => (mapSet store offerName (offer.DisableForUser userID), true)

/-! ### Association-list lemmas (Go map semantics) -/

theorem mapGet_set_self {α : Type} (m : List (String × α)) (k : String) (v : α) :
    mapGet (mapSet m k v) k = some v := by
  induction m with
  | nil => simp [mapSet, mapGet]
  | cons p rest ih =>
      obtain ⟨k', v'⟩ := p
      by_cases h : k' = k
      · simp [mapSet, h, mapGet]
      · simp [mapSet, h, mapGet, ih]

theorem mapGet_set_ne {α : Type} (m : List (String × α)) (k k' : String) (v : α)
    (h : k' ≠ k) : mapGet (mapSet m k v) k' = mapGet m k' := by
  induction m with
  | nil => simp [mapSet, mapGet, Ne.symm h]
  | cons p rest ih =>
      obtain ⟨k₀, v₀⟩ := p
      by_cases h₀ : k₀ = k
      · subst h₀
        simp [mapSet, mapGet, Ne.symm h]
      · simp [mapSet, h₀, mapGet, ih]

theorem mapSet_set_self {α : Type} (m : List (String × α)) (k : String) (v v' : α) :
    mapSet (mapSet m k v) k v' = mapSet m k v' := by
  induction m with
  | nil => simp [mapSet]
  | cons p rest ih =>
      obtain ⟨k₀, v₀⟩ := p
      by_cases h₀ : k₀ = k
      · simp [mapSet, h₀]
      · simp [mapSet, h₀, ih]

/-! ### Selector analysis -/

/-- With a non-`nil` accumulator the loop always produces an offer. -/
theorem applyBestAux_some (t : Transaction) (l : List Offer) :
    ∀ c : Offer, ∃ b, applyBestAux t (some c) l = some b := by
  induction l with
  | nil => intro c; exact ⟨c, rfl⟩
  | cons o rest ih =>
      intro c
      by_cases ha : isOfferApplicable t o
      · by_cases hlt : c.outcome < o.outcome
        · simpa [applyBestAux, ha, hlt] using ih o
        · simpa [applyBestAux, ha, hlt] using ih c
      · simpa [applyBestAux, ha] using ih c

/-- The loop yields no offer from an empty accumulator iff no offer is applicable. -/
theorem applyBestAux_none_iff (t : Transaction) (l : List Offer) :
    applyBestAux t none l = none ↔ ∀ o ∈ l, isOfferApplicable t o = false := by
  induction l with
  | nil => simp [applyBestAux]
  | cons o rest ih =>
      by_cases ha : isOfferApplicable t o
      · obtain ⟨b, hb⟩ := applyBestAux_some t rest o
        have hl : applyBestAux t none (o :: rest) = some b := by
          simp [applyBestAux, ha, hb]
        rw [hl]
        constructor
        · intro h; cases h
        · intro h
          have hfalse := h o (List.mem_cons_self o rest)
          rw [ha] at hfalse; cases hfalse
      · have ha' : isOfferApplicable t o = false := by simpa using ha
        have hl : applyBestAux t none (o :: rest) = applyBestAux t none rest := by
          simp [applyBestAux, ha']
        rw [hl, ih]
        constructor
        · intro h o' ho'
          rcases List.mem_cons.mp ho' with rfl | ho'
          · exact ha'
          · exact h o' ho'
        · intro h o' ho'
          exact h o' (List.mem_cons_of_mem o ho')

/-- Full characterisation of the loop with accumulator `some c`: the result bounds
every applicable offer of the remainder, and is either `c` itself or a strictly
better applicable offer that is the first of its outcome in the remainder. -/
theorem applyBestAux_some_spec (t : Transaction) (l : List Offer) :
    ∀ (c b : Offer), applyBestAux t (some c) l = some b →
      (∀ o ∈ l, isOfferApplicable t o = true → o.outcome ≤ b.outcome) ∧
      c.outcome ≤ b.outcome ∧
      (b = c ∨
        (isOfferApplicable t b = true ∧ c.outcome < b.outcome ∧
          ∃ l₁ l₂, l = l₁ ++ b :: l₂ ∧
            ∀ o ∈ l₁, isOfferApplicable t o = true → o.outcome < b.outcome)) := by
  induction l with
  | nil =>
      intro c b hb
      simp only [applyBestAux] at hb
      cases hb
      exact ⟨by simp, le_refl _, Or.inl rfl⟩
  | cons o rest ih =>
      intro c b hb
      by_cases ha : isOfferApplicable t o
      · by_cases hlt : c.outcome < o.outcome
        · simp only [applyBestAux, ha, if_true, hlt] at hb
          obtain ⟨hbound, hole, hcase⟩ := ih o b hb
          refine ⟨?_, le_of_lt (lt_of_lt_of_le hlt hole), ?_⟩
          · intro o' ho' happ
            rcases List.mem_cons.mp ho' with rfl | ho'
            · exact hole
            · exact hbound o' ho' happ
          · rcases hcase with rfl | ⟨happb, hob, l₁, l₂, hsplit, hfirst⟩
            · exact Or.inr ⟨ha, hlt, [], rest, by simp, by simp⟩
            · refine Or.inr ⟨happb, lt_trans hlt hob, o :: l₁, l₂, by simp [hsplit], ?_⟩
              intro o' ho' happ
              rcases List.mem_cons.mp ho' with rfl | ho'
              · exact hob
              · exact hfirst o' ho' happ
        · simp only [applyBestAux, ha, if_true, hlt] at hb
          obtain ⟨hbound, hcle, hcase⟩ := ih c b hb
          refine ⟨?_, hcle, ?_⟩
          · intro o' ho' happ
            rcases List.mem_cons.mp ho' with rfl | ho'
            · exact le_trans (not_lt.mp hlt) hcle
            · exact hbound o' ho' happ
          · rcases hcase with rfl | ⟨happb, hcb, l₁, l₂, hsplit, hfirst⟩
            · exact Or.inl rfl
            · refine Or.inr ⟨happb, hcb, o :: l₁, l₂, by simp [hsplit], ?_⟩
              intro o' ho' happ
              rcases List.mem_cons.mp ho' with rfl | ho'
              · exact lt_of_le_of_lt (not_lt.mp hlt) hcb
              · exact hfirst o' ho' happ
      · simp only [applyBestAux, ha, if_false] at hb
        obtain ⟨hbound, hcle, hcase⟩ := ih c b hb
        refine ⟨?_, hcle, ?_⟩
        · intro o' ho' happ
          rcases List.mem_cons.mp ho' with rfl | ho'
          · exact absurd happ (by simpa using ha)
          · exact hbound o' ho' happ
        · rcases hcase with rfl | ⟨happb, hcb, l₁, l₂, hsplit, hfirst⟩
          · exact Or.inl rfl
          · refine Or.inr ⟨happb, hcb, o :: l₁, l₂, by simp [hsplit], ?_⟩
            intro o' ho' happ
            rcases List.mem_cons.mp ho' with rfl | ho'
            · exact absurd happ (by simpa using ha)
            · exact hfirst o' ho' happ

/-- Specification of the loop from the empty accumulator: the result is the first
offer attaining the maximum outcome among the applicable ones. -/
theorem applyBestAux_none_spec (t : Transaction) (l : List Offer) (b : Offer)
    (hb : applyBestAux t none l = some b) :
    isOfferApplicable t b = true ∧
      (∀ o ∈ l, isOfferApplicable t o = true → o.outcome ≤ b.outcome) ∧
      ∃ l₁ l₂, l = l₁ ++ b :: l₂ ∧
        ∀ o ∈ l₁, isOfferApplicable t o = true → o.outcome < b.outcome := by
  induction l with
  | nil => simp [applyBestAux] at hb
  | cons o rest ih =>
      by_cases ha : isOfferApplicable t o
      · simp only [applyBestAux, ha, if_true] at hb
        obtain ⟨hbound, hole, hcase⟩ := applyBestAux_some_spec t rest o b hb
        rcases hcase with rfl | ⟨happb, hob, l₁, l₂, hsplit, hfirst⟩
        · refine ⟨ha, ?_, [], rest, by simp, by simp⟩
          intro o' ho' happ
          rcases List.mem_cons.mp ho' with rfl | ho'
          · exact le_refl _
          · exact hbound o' ho' happ
        · refine ⟨happb, ?_, o :: l₁, l₂, by simp [hsplit], ?_⟩
          · intro o' ho' happ
            rcases List.mem_cons.mp ho' with rfl | ho'
            · exact hole
            · exact hbound o' ho' happ
          · intro o' ho' happ
            rcases List.mem_cons.mp ho' with rfl | ho'
            · exact hob
            · exact hfirst o' ho' happ
      · simp only [applyBestAux, ha, if_false] at hb
        obtain ⟨happb, hbound, l₁, l₂, hsplit, hfirst⟩ := ih hb
        refine ⟨happb, ?_, o :: l₁, l₂, by simp [hsplit], ?_⟩
        · intro o' ho' happ
          rcases List.mem_cons.mp ho' with rfl | ho'
          · exact absurd happ (by simpa using ha)
          · exact hbound o' ho' happ
        · intro o' ho' happ
          rcases List.mem_cons.mp ho' with rfl | ho'
          · exact absurd happ (by simpa using ha)
          · exact hfirst o' ho' happ

/-! ### Concrete fixtures (the scenario of the spec: offers A and B for user u1) -/

def offerA : Offer :=
  { id := "A", name := "Offer A", description := "grocery cashback",
    rewardType := "cashback", outcome := 5, minAmount := 100, minMilestone := 0,
    details := "", enabledFor := [("u1", true)], merchantCategory := "grocery" }

def offerB : Offer :=
  { id := "B", name := "Offer B", description := "grocery cashback",
    rewardType := "cashback", outcome := 8, minAmount := 50, minMilestone := 0,
    details := "", enabledFor := [("u1", true)], merchantCategory := "grocery" }

def txn1 : Transaction :=
  { txnID := "t1", customerID := "u1", amount := 120, merchantID := "m1",
    merchantCategory := "grocery", postEntryMode := "chip", timestamp := 0 }

/-! ### Claims -/

/-- C1: `isOfferApplicable` holds iff the amount clears the inclusive minimum,
the merchant category matches exactly as a string, and the offer's enablement
flag for the transaction's customer is true. -/
theorem C1_isOfferApplicable_iff (t : Transaction) (o : Offer) :
    isOfferApplicable t o = true ↔
      o.minAmount ≤ t.amount ∧ t.merchantCategory = o.merchantCategory ∧
        isEnabledFor o t.customerID = true := by
  simp [isOfferApplicable, Bool.and_eq_true, decide_eq_true_eq, beq_iff_eq,
    and_assoc]

/-- C2: whenever some offer in the iteration sequence is applicable,
`ApplyBestOfferForTransaction` returns an applicable offer whose outcome is
maximal among the applicable ones, and which is the first offer encountered
that attains that maximum (every applicable offer strictly before it in the
sequence has a strictly smaller outcome). -/
theorem C2_selects_best_applicable (t : Transaction) (offers : List Offer)
    (h : ∃ o ∈ offers, isOfferApplicable t o = true) :
    ∃ b, ApplyBestOfferForTransaction t offers = .ok b ∧
      isOfferApplicable t b = true ∧
      (∀ o ∈ offers, isOfferApplicable t o = true → o.outcome ≤ b.outcome) ∧
      ∃ l₁ l₂, offers = l₁ ++ b :: l₂ ∧
        ∀ o ∈ l₁, isOfferApplicable t o = true → o.outcome < b.outcome := by
  obtain ⟨w, hw, hwapp⟩ := h
  cases haux : applyBestAux t none offers with
  | none =>
      have hall := (applyBestAux_none_iff t offers).mp haux
      rw [hall w hw] at hwapp
      cases hwapp
  | some b =>
      obtain ⟨happ, hbound, l₁, l₂, hsplit, hfirst⟩ :=
        applyBestAux_none_spec t offers b haux
      exact ⟨b, by simp [ApplyBestOfferForTransaction, haux], happ, hbound,
        l₁, l₂, hsplit, hfirst⟩

/-- Witness for C2 on the spec's scenario: both offers eligible, B (outcome 8)
wins over A (outcome 5). -/
theorem C2_selects_best_applicable_witness :
    ∃ b, ApplyBestOfferForTransaction txn1 [offerA, offerB] = .ok b ∧
      isOfferApplicable txn1 b = true ∧
      (∀ o ∈ [offerA, offerB], isOfferApplicable txn1 o = true →
        o.outcome ≤ b.outcome) ∧
      ∃ l₁ l₂, [offerA, offerB] = l₁ ++ b :: l₂ ∧
        ∀ o ∈ l₁, isOfferApplicable txn1 o = true → o.outcome < b.outcome :=
  C2_selects_best_applicable txn1 [offerA, offerB] (by decide)

/-- C3: the selector returns the distinct "no applicable offer found" error iff
no offer in the iteration sequence is applicable to the transaction. -/
theorem C3_no_applicable_offer_iff (t : Transaction) (offers : List Offer) :
    ApplyBestOfferForTransaction t offers = .error "no applicable offer found" ↔
      ∀ o ∈ offers, isOfferApplicable t o = false := by
  rw [← applyBestAux_none_iff]
  unfold ApplyBestOfferForTransaction
  cases haux : applyBestAux t none offers with
  | none => simp
  | some b => simp

/-- C4: enabling a user then disabling the same user round-trips: after the
enable the flag is true, after the subsequent disable it is false. -/
theorem C4_enable_disable_roundtrip (o : Offer) (u : String) :
    isEnabledFor (o.EnableForUser u) u = true ∧
      isEnabledFor ((o.EnableForUser u).DisableForUser u) u = false := by
  constructor
  · simp [isEnabledFor, Offer.EnableForUser, mapGet_set_self]
  · simp [isEnabledFor, Offer.EnableForUser, Offer.DisableForUser, mapGet_set_self]

/-- C5: if an applicable offer's outcome strictly dominates every other offer
in the collection, the selector returns exactly that offer. -/
theorem C5_outcome_monotonicity (t : Transaction) (offers : List Offer)
    (E : Offer) (hE : E ∈ offers) (happ : isOfferApplicable t E = true)
    (hmax : ∀ o ∈ offers, o ≠ E → o.outcome < E.outcome) :
    ApplyBestOfferForTransaction t offers = .ok E := by
  cases haux : applyBestAux t none offers with
  | none =>
      have hall := (applyBestAux_none_iff t offers).mp haux
      rw [hall E hE] at happ
      cases happ
  | some b =>
      obtain ⟨happb, hbound, l₁, l₂, hsplit, hfirst⟩ :=
        applyBestAux_none_spec t offers b haux
      have hbE : b = E := by
        by_contra hne
        have hb_mem : b ∈ offers := by
          rw [hsplit]; exact List.mem_append_right l₁ (List.mem_cons_self b l₂)
        have hlt := hmax b hb_mem hne
        have hle := hbound E hE happ
        exact absurd hlt (not_lt.mpr hle)
      subst hbE
      simp [ApplyBestOfferForTransaction, haux]

/-- Witness for C5: offer B is applicable and strictly dominates offer A, so
it is selected. -/
theorem C5_outcome_monotonicity_witness :
    ApplyBestOfferForTransaction txn1 [offerA, offerB] = .ok offerB :=
  C5_outcome_monotonicity txn1 [offerA, offerB] offerB (by decide) (by decide)
    (by decide)

/-- C6: an absent enablement entry evaluates as disabled; disabling a
never-enabled user keeps evaluation at disabled while recording an explicit
`false` entry; and enable/disable are idempotent on the offer state. -/
theorem C6_default_disabled_and_idempotence (o : Offer) (u : String)
    (h : mapGet o.enabledFor u = none) :
    isEnabledFor o u = false ∧
      isEnabledFor (o.DisableForUser u) u = false ∧
      mapGet (o.DisableForUser u).enabledFor u = some false ∧
      (∀ (o' : Offer) (u' : String),
        (o'.EnableForUser u').EnableForUser u' = o'.EnableForUser u') ∧
      (∀ (o' : Offer) (u' : String),
        (o'.DisableForUser u').DisableForUser u' = o'.DisableForUser u') := by
  refine ⟨by simp [isEnabledFor, h], ?_, ?_, ?_, ?_⟩
  · simp [isEnabledFor, Offer.DisableForUser, mapGet_set_self]
  · simp [Offer.DisableForUser, mapGet_set_self]
  · intro o' u'
    simp [Offer.EnableForUser, mapSet_set_self]
  · intro o' u'
    simp [Offer.DisableForUser, mapSet_set_self]

/-- Witness for C6 at a user (`u2`) with no entry on offer A. -/
theorem C6_default_disabled_and_idempotence_witness :
    isEnabledFor offerA "u2" = false ∧
      isEnabledFor (offerA.DisableForUser "u2") "u2" = false ∧
      mapGet (offerA.DisableForUser "u2").enabledFor "u2" = some false ∧
      (∀ (o' : Offer) (u' : String),
        (o'.EnableForUser u').EnableForUser u' = o'.EnableForUser u') ∧
      (∀ (o' : Offer) (u' : String),
        (o'.DisableForUser u').DisableForUser u' = o'.DisableForUser u') :=
  C6_default_disabled_and_idempotence offerA "u2" (by decide)

/-- A replacement offer sharing identifier "A" with `offerA` but differing in
every other respect, including its enablement mapping. -/
def offerA2 : Offer :=
  { id := "A", name := "Offer A v2", description := "new terms",
    rewardType := "points", outcome := 3, minAmount := 10, minMilestone := 2,
    details := "replaced", enabledFor := [("u9", true)],
    merchantCategory := "fuel" }

/-- C7: creating an offer under an existing identifier replaces the prior offer
wholesale (the lookup afterwards yields exactly the new offer, enablement map
included), and every other identifier maps to the same offer as before. -/
theorem C7_put_replaces_wholesale (store : Store) (o : Offer) :
    mapGet (createOfferHandler store o) o.id = some o ∧
      ∀ k, k ≠ o.id → mapGet (createOfferHandler store o) k = mapGet store k := by
  constructor
  · exact mapGet_set_self store o.id o
  · intro k hk
    exact mapGet_set_ne store o.id k o hk

/-- Witness for C7: replacing offer A with `offerA2` yields exactly `offerA2`
under "A" and leaves "B" untouched. -/
theorem C7_put_replaces_wholesale_witness :
    mapGet (createOfferHandler [("A", offerA), ("B", offerB)] offerA2) "A" =
        some offerA2 ∧
      mapGet (createOfferHandler [("A", offerA), ("B", offerB)] offerA2) "B" =
        mapGet [("A", offerA), ("B", offerB)] "B" :=
  ⟨(C7_put_replaces_wholesale [("A", offerA), ("B", offerB)] offerA2).1,
    (C7_put_replaces_wholesale [("A", offerA), ("B", offerB)] offerA2).2 "B"
      (by decide)⟩

/-- An offer payload whose identifier is the empty string. -/
def offerEmptyID : Offer :=
  { id := "", name := "nameless", description := "", rewardType := "cashback",
    outcome := 1, minAmount := 0, minMilestone := 0, details := "",
    enabledFor := [], merchantCategory := "grocery" }

/-- C8 counterexample: the create-offer handler performs no non-empty-identifier
validation — an offer with an empty identifier is stored under the empty-string
key and the store changes, contradicting the claim that such a payload is
rejected with the store left unchanged. -/
theorem C8_counterexample :
    mapGet (createOfferHandler [] offerEmptyID) "" = some offerEmptyID ∧
      createOfferHandler [] offerEmptyID ≠ ([] : Store) := by
  constructor
  · decide
  · decide

/-- C8 amended: the create-offer handler performs no identifier validation:
an offer whose identifier is the empty string is stored under the empty-string
key like any other offer (replacing any prior offer there), with all other
keys unchanged. -/
theorem C8_no_empty_id_validation (store : Store) (o : Offer) (h : o.id = "") :
    mapGet (createOfferHandler store o) "" = some o ∧
      ∀ k, k ≠ "" → mapGet (createOfferHandler store o) k = mapGet store k := by
  constructor
  · rw [← h]
    exact mapGet_set_self store o.id o
  · intro k hk
    rw [← h] at hk
    exact mapGet_set_ne store o.id k o hk

/-- Witness for the amended C8: storing `offerEmptyID` into the empty store
puts it under `""` and leaves key "A" unaffected. -/
theorem C8_no_empty_id_validation_witness :
    mapGet (createOfferHandler [] offerEmptyID) "" = some offerEmptyID ∧
      mapGet (createOfferHandler [] offerEmptyID) "A" = mapGet ([] : Store) "A" :=
  ⟨(C8_no_empty_id_validation [] offerEmptyID rfl).1,
    (C8_no_empty_id_validation [] offerEmptyID rfl).2 "A" (by decide)⟩

/-- C9: the enable and disable handlers report not-found (`false`) exactly when
no offer with the given name exists, and in that case the store is left
entirely unchanged; when the offer exists they report success (`true`). -/
theorem C9_not_found_iff (store : Store) (offerName userID : String) :
    ((enableOfferHandler store offerName userID).2 = false ↔
      mapGet store offerName = none) ∧
    ((disableOfferHandler store offerName userID).2 = false ↔
      mapGet store offerName = none) ∧
    (mapGet store offerName = none →
      (enableOfferHandler store offerName userID).1 = store ∧
      (disableOfferHandler store offerName userID).1 = store) := by
  cases h : mapGet store offerName with
  | none => simp [enableOfferHandler, disableOfferHandler, h]
  | some o => simp [enableOfferHandler, disableOfferHandler, h]

/-- Witness for C9: enabling/disabling a missing offer name reports not-found
and leaves the one-offer store unchanged. -/
theorem C9_not_found_iff_witness :
    (enableOfferHandler [("A", offerA)] "missing" "u1").2 = false ∧
      (disableOfferHandler [("A", offerA)] "missing" "u1").2 = false ∧
      (enableOfferHandler [("A", offerA)] "missing" "u1").1 = [("A", offerA)] ∧
      (disableOfferHandler [("A", offerA)] "missing" "u1").1 = [("A", offerA)] :=
  ⟨(C9_not_found_iff [("A", offerA)] "missing" "u1").1.mpr (by decide),
    (C9_not_found_iff [("A", offerA)] "missing" "u1").2.1.mpr (by decide),
    ((C9_not_found_iff [("A", offerA)] "missing" "u1").2.2 (by decide)).1,
    ((C9_not_found_iff [("A", offerA)] "missing" "u1").2.2 (by decide)).2⟩

/-- C10 (frame): enable/disable touch only the given user's entry on the given
offer — every non-enablement field of the offer, every other user's entry, and
(through the handlers) every other offer in the store are unchanged. -/
theorem C10_frame (o : Offer) (u : String) :
    ((o.EnableForUser u).id = o.id ∧ (o.EnableForUser u).name = o.name ∧
      (o.EnableForUser u).description = o.description ∧
      (o.EnableForUser u).rewardType = o.rewardType ∧
      (o.EnableForUser u).outcome = o.outcome ∧
      (o.EnableForUser u).minAmount = o.minAmount ∧
      (o.EnableForUser u).minMilestone = o.minMilestone ∧
      (o.EnableForUser u).details = o.details ∧
      (o.EnableForUser u).merchantCategory = o.merchantCategory) ∧
    ((o.DisableForUser u).id = o.id ∧ (o.DisableForUser u).name = o.name ∧
      (o.DisableForUser u).description = o.description ∧
      (o.DisableForUser u).rewardType = o.rewardType ∧
      (o.DisableForUser u).outcome = o.outcome ∧
      (o.DisableForUser u).minAmount = o.minAmount ∧
      (o.DisableForUser u).minMilestone = o.minMilestone ∧
      (o.DisableForUser u).details = o.details ∧
      (o.DisableForUser u).merchantCategory = o.merchantCategory) ∧
    (∀ u', u' ≠ u →
      mapGet (o.EnableForUser u).enabledFor u' = mapGet o.enabledFor u' ∧
      mapGet (o.DisableForUser u).enabledFor u' = mapGet o.enabledFor u') ∧
    (∀ (store : Store) (n k : String), mapGet store n = some o → k ≠ n →
      mapGet (enableOfferHandler store n u).1 k = mapGet store k ∧
      mapGet (disableOfferHandler store n u).1 k = mapGet store k) := by
  refine ⟨?_, ?_, ?_, ?_⟩
  · simp [Offer.EnableForUser]
  · simp [Offer.DisableForUser]
  · intro u' hne
    exact ⟨mapGet_set_ne o.enabledFor u u' true hne,
      mapGet_set_ne o.enabledFor u u' false hne⟩
  · intro store n k ho hk
    constructor
    · simp only [enableOfferHandler, ho]
      exact mapGet_set_ne store n k (o.EnableForUser u) hk
    · simp only [disableOfferHandler, ho]
      exact mapGet_set_ne store n k (o.DisableForUser u) hk

/-- Witness for C10: enabling user u2 on offer A keeps u1's entry, A's fields,
and offer B in the store intact. -/
theorem C10_frame_witness :
    (offerA.EnableForUser "u2").outcome = offerA.outcome ∧
      (offerA.DisableForUser "u2").merchantCategory = offerA.merchantCategory ∧
      mapGet (offerA.EnableForUser "u2").enabledFor "u1" =
        mapGet offerA.enabledFor "u1" ∧
      mapGet (enableOfferHandler [("A", offerA), ("B", offerB)] "A" "u2").1 "B" =
        mapGet [("A", offerA), ("B", offerB)] "B" :=
  ⟨(C10_frame offerA "u2").1.2.2.2.2.1,
    (C10_frame offerA "u2").2.1.2.2.2.2.2.2.2.2,
    ((C10_frame offerA "u2").2.2.1 "u1" (by decide)).1,
    ((C10_frame offerA "u2").2.2.2 [("A", offerA), ("B", offerB)] "A" "B"
      (by decide) (by decide)).1⟩
